import Mathlib

/-!
Verification development for the agentic tool-calling execution core of the
agent-platform repository. The core is specified by the design document
"Agent Tools" (apps/backend/README.md); the runtime itself is not present in
the repository, so the definitions below are shallow embeddings modelled
from that specification. Every definition whose doc comment starts with
"Modelled from the spec:" embeds a contract for which the repository holds
only the design document, not executable code.
-/

namespace AgentTools

/-! ### Structured input/output payloads

Modelled from the spec: tool inputs and outputs are untyped structured data
(JSON-shaped). The mutual shape (value / array elements / object fields)
keeps every function over payloads structurally recursive.
-/

mutual
inductive Json where
  | null
  | bool (b : Bool)
  | num (n : Int)
  | str (s : String)
  | arr (items : JsonList)
  | obj (fields : JsonFields)
deriving DecidableEq, Repr

inductive JsonList where
  | nil
  | cons (hd : Json) (tl : JsonList)
deriving DecidableEq, Repr

inductive JsonFields where
  | nil
  | cons (key : String) (val : Json) (tl : JsonFields)
deriving DecidableEq, Repr
end

def JsonFields.toList : JsonFields → List (String × Json)
  | .nil => []
  | .cons k v t => (k, v) :: t.toList

def JsonFields.ofList : List (String × Json) → JsonFields
  | [] => .nil
  | (k, v) :: t => .cons k v (JsonFields.ofList t)

theorem JsonFields.toList_ofList : ∀ l : List (String × Json), (JsonFields.ofList l).toList = l
  | [] => rfl
  | (k, v) :: t => by simp [JsonFields.ofList, JsonFields.toList, JsonFields.toList_ofList t]

/-- Keys of an object's field list, in order. -/
def JsonFields.keys (o : JsonFields) : List String := o.toList.map Prod.fst

/-! ### Kernel-computable string ordering

Comparison of strings by their character lists. The design document only
requires a stable canonical key ordering; this lexicographic order on
character codes is the model's canonical order.
-/

def charListLE : List Char → List Char → Bool
  | [], _ => true
  | _ :: _, [] => false
  | a :: as, b :: bs =>
    if a.toNat < b.toNat then true
    else if b.toNat < a.toNat then false
    else charListLE as bs

theorem charToNat_inj {a b : Char} (h : a.toNat = b.toNat) : a = b :=
  Char.ext (UInt32.ext_iff.mpr h)

theorem charListLE_cons_iff {a b : Char} {as bs : List Char} :
    charListLE (a :: as) (b :: bs) = true ↔
      a.toNat < b.toNat ∨ (a.toNat = b.toNat ∧ charListLE as bs = true) := by
  simp only [charListLE]
  split_ifs with h1 h2
  · simp [h1]
  · constructor
    · intro h; exact absurd h (by simp)
    · intro h; omega
  · constructor
    · intro h; exact Or.inr ⟨by omega, h⟩
    · rintro (h | ⟨_, h⟩)
      · omega
      · exact h

theorem charListLE_total : ∀ a b : List Char, charListLE a b = true ∨ charListLE b a = true
  | [], _ => Or.inl rfl
  | _ :: _, [] => Or.inr rfl
  | a :: as, b :: bs => by
    rw [charListLE_cons_iff, charListLE_cons_iff]
    rcases Nat.lt_trichotomy a.toNat b.toNat with h | h | h
    · exact Or.inl (Or.inl h)
    · rcases charListLE_total as bs with ih | ih
      · exact Or.inl (Or.inr ⟨h, ih⟩)
      · exact Or.inr (Or.inr ⟨h.symm, ih⟩)
    · exact Or.inr (Or.inl h)

theorem charListLE_trans : ∀ a b c : List Char,
    charListLE a b = true → charListLE b c = true → charListLE a c = true
  | [], _, _, _, _ => rfl
  | _ :: _, [], _, h, _ => by simp [charListLE] at h
  | _ :: _, _ :: _, [], _, h => by simp [charListLE] at h
  | a :: as, b :: bs, c :: cs, h1, h2 => by
    rw [charListLE_cons_iff] at h1 h2 ⊢
    rcases h1 with h1 | ⟨h1, h1t⟩
    · rcases h2 with h2 | ⟨h2, _⟩
      · exact Or.inl (by omega)
      · exact Or.inl (by omega)
    · rcases h2 with h2 | ⟨h2, h2t⟩
      · exact Or.inl (by omega)
      · exact Or.inr ⟨by omega, charListLE_trans as bs cs h1t h2t⟩

theorem charListLE_antisymm : ∀ a b : List Char,
    charListLE a b = true → charListLE b a = true → a = b
  | [], [], _, _ => rfl
  | [], _ :: _, _, h => by simp [charListLE] at h
  | _ :: _, [], h, _ => by simp [charListLE] at h
  | a :: as, b :: bs, h1, h2 => by
    rw [charListLE_cons_iff] at h1 h2
    rcases h1 with h1 | ⟨h1, h1t⟩
    · rcases h2 with h2 | ⟨h2, _⟩ <;> omega
    · rcases h2 with h2 | ⟨h2, h2t⟩
      · omega
      · rw [charToNat_inj h1, charListLE_antisymm as bs h1t h2t]

def strLE (s t : String) : Bool := charListLE s.data t.data

theorem strLE_antisymm {s t : String} (h1 : strLE s t = true) (h2 : strLE t s = true) : s = t := by
  cases s with
  | mk sd =>
    cases t with
    | mk td =>
      simp only [strLE] at h1 h2
      rw [charListLE_antisymm sd td h1 h2]

/-- Canonical order on object fields: compare keys. -/
def keyLE (p q : String × Json) : Prop := strLE p.1 q.1 = true

instance : DecidableRel keyLE := fun p q => inferInstanceAs (Decidable (strLE p.1 q.1 = true))

instance : IsTotal (String × Json) keyLE :=
  ⟨fun a b => charListLE_total a.1.data b.1.data⟩

instance : IsTrans (String × Json) keyLE :=
  ⟨fun a b c hab hbc => charListLE_trans a.1.data b.1.data c.1.data hab hbc⟩

/-- Canonical sorting of an object's fields by key. -/
def sortFields (o : JsonFields) : JsonFields :=
  .ofList (List.insertionSort keyLE o.toList)

/-! ### Normalization

Modelled from the spec: input is structurally canonicalized (stable key
ordering) before hashing, so that semantically identical inputs in
different serialization orders map to the same call id.
-/

mutual
def normalize : Json → Json
  | .null => .null
  | .bool b => .bool b
  | .num n => .num n
  | .str s => .str s
  | .arr l => .arr (normalizeList l)
  | .obj o => .obj (sortFields (normalizeFields o))

def normalizeList : JsonList → JsonList
  | .nil => .nil
  | .cons x xs => .cons (normalize x) (normalizeList xs)

def normalizeFields : JsonFields → JsonFields
  | .nil => .nil
  | .cons k v xs => .cons k (normalize v) (normalizeFields xs)
end

/-! ### Serialization and hashing -/

mutual
def serialize : Json → String
  | .null => "null"
  | .bool b => cond b "true" "false"
  | .num n => toString n
  | .str s => "\"" ++ s ++ "\""
  | .arr l => "[" ++ serializeList l ++ "]"
  | .obj o => "\x7b" ++ serializeFields o ++ "\x7d"

def serializeList : JsonList → String
  | .nil => ""
  | .cons x .nil => serialize x
  | .cons x (.cons y ys) => serialize x ++ "," ++ serializeList (.cons y ys)

def serializeFields : JsonFields → String
  | .nil => ""
  | .cons k v .nil => "\"" ++ k ++ "\":" ++ serialize v
  | .cons k v (.cons k2 w t) =>
    "\"" ++ k ++ "\":" ++ serialize v ++ "," ++ serializeFields (.cons k2 w t)
end

/-- Modulus for the 128-bit hash output required by the spec. -/
def hashMod : Nat := 2 ^ 128

/-- Rolling hash over a character list, reduced modulo 2^128. Modelled from
the spec: the concrete collision-resistant hash is left abstract by the
design document; any fixed pure function of the preimage string satisfies
the stated determinism properties. -/
def charHash : List Char → Nat → Nat
  | [], h => h % hashMod
  | c :: cs, h => charHash cs ((h * 131 + c.toNat) % hashMod)

def strHash (s : String) : Nat := charHash s.data 5381

/-- Semantic version, modelled structurally as a major.minor.patch triple
(the design document stores it as a semantic version string). -/
structure SemVer where
  major : Nat
  minor : Nat
  patch : Nat
deriving DecidableEq, Repr

def SemVer.toStr (v : SemVer) : String :=
  Nat.repr v.major ++ "." ++ Nat.repr v.minor ++ "." ++ Nat.repr v.patch

namespace CallId

/-- Modelled from the spec: the Deterministic Call Identifier contract
compute(tool_name, version, input, sequence_number) -> call_id, where
call_id = hash(tool_name || "@" || version || "|" || normalized_input ||
"|" || sequence_number). -/
def compute (tool_name : String) (version : SemVer) (input : Json) (sequence_number : Nat) :
    String :=
  Nat.repr (strHash (tool_name ++ "@" ++ SemVer.toStr version ++ "|" ++
    serialize (normalize input) ++ "|" ++ Nat.repr sequence_number))

end CallId

/-! ### Structural equality up to key permutation

Two payloads are related when they are structurally equal except that the
fields of any object may appear in a different order. Object fields are
required to have duplicate-free keys, which is what makes two key orders
of the same object semantically identical structured data.
-/

mutual
inductive JEquiv : Json → Json → Prop where
  | null : JEquiv .null .null
  | bool (b : Bool) : JEquiv (.bool b) (.bool b)
  | num (n : Int) : JEquiv (.num n) (.num n)
  | str (s : String) : JEquiv (.str s) (.str s)
  | arr (l1 l2 : JsonList) : JEquivList l1 l2 → JEquiv (.arr l1) (.arr l2)
  | obj (o1 mid o2 : JsonFields) : JEquivFields o1 mid → mid.toList.Perm o2.toList →
      o1.keys.Nodup → JEquiv (.obj o1) (.obj o2)

inductive JEquivList : JsonList → JsonList → Prop where
  | nil : JEquivList .nil .nil
  | cons (x y : Json) (xs ys : JsonList) :
      JEquiv x y → JEquivList xs ys → JEquivList (.cons x xs) (.cons y ys)

inductive JEquivFields : JsonFields → JsonFields → Prop where
  | nil : JEquivFields .nil .nil
  | cons (k : String) (v w : Json) (t1 t2 : JsonFields) :
      JEquiv v w → JEquivFields t1 t2 → JEquivFields (.cons k v t1) (.cons k w t2)
end

/-- Two sorted field lists that are permutations of each other and have
duplicate-free keys are equal. -/
theorem sorted_perm_nodupkeys_eq :
    ∀ l1 l2 : List (String × Json), l1.Perm l2 → l1.Sorted keyLE → l2.Sorted keyLE →
      (l1.map Prod.fst).Nodup → l1 = l2
  | [], l2, hp, _, _, _ => by simpa using hp.nil_eq
  | a :: t1, l2, hp, hs1, hs2, hnd => by
    cases l2 with
    | nil => exact absurd hp.symm (by simp)
    | cons b t2 =>
      by_cases hab : a = b
      · subst hab
        have htp : t1.Perm t2 := hp.cons_inv
        have := sorted_perm_nodupkeys_eq t1 t2 htp (List.Sorted.of_cons hs1)
          (List.Sorted.of_cons hs2) (by simpa using hnd.of_cons)
        rw [this]
      · exfalso
        have hbmem : b ∈ a :: t1 := hp.mem_iff.mpr (by simp)
        have hbt1 : b ∈ t1 := by
          cases hbmem with
          | head => exact absurd rfl hab
          | tail _ h => exact h
        have hamem : a ∈ b :: t2 := hp.mem_iff.mp (by simp)
        have hat2 : a ∈ t2 := by
          cases hamem with
          | head => exact absurd rfl hab
          | tail _ h => exact h
        have h1 : keyLE a b := (List.sorted_cons.mp hs1).1 b hbt1
        have h2 : keyLE b a := (List.sorted_cons.mp hs2).1 a hat2
        have hk : a.1 = b.1 := strLE_antisymm h1 h2
        have : b.1 ∈ t1.map Prod.fst := List.mem_map_of_mem Prod.fst hbt1
        rw [← hk] at this
        exact (List.nodup_cons.mp hnd).1 this

theorem sortFields_eq_of_perm {o1 o2 : JsonFields}
    (hperm : o1.toList.Perm o2.toList) (hnd : o1.keys.Nodup) :
    sortFields o1 = sortFields o2 := by
  unfold sortFields
  congr 1
  apply sorted_perm_nodupkeys_eq
  · exact ((List.perm_insertionSort keyLE o1.toList).trans hperm).trans
      (List.perm_insertionSort keyLE o2.toList).symm
  · exact List.sorted_insertionSort keyLE o1.toList
  · exact List.sorted_insertionSort keyLE o2.toList
  · have : ((List.insertionSort keyLE o1.toList).map Prod.fst).Perm (o1.toList.map Prod.fst) :=
      (List.perm_insertionSort keyLE o1.toList).map Prod.fst
    exact this.nodup_iff.mpr hnd

theorem normalizeFields_toList :
    ∀ o : JsonFields, (normalizeFields o).toList = o.toList.map (fun p => (p.1, normalize p.2))
  | .nil => rfl
  | .cons k v t => by
    simp [normalizeFields, JsonFields.toList, normalizeFields_toList t]

theorem keys_normalizeFields (o : JsonFields) : (normalizeFields o).keys = o.keys := by
  simp [JsonFields.keys, normalizeFields_toList o]

theorem sizeOf_pos_json : ∀ x : Json, 1 ≤ sizeOf x := by
  intro x; cases x <;> simp

/-- Pointwise-equivalent field lists have identical key sequences. -/
theorem keys_eq_of_jequivFields : ∀ (t1 t2 : JsonFields), JEquivFields t1 t2 → t1.keys = t2.keys
  | .nil, t2, h => by cases h; rfl
  | .cons k v t, t2, h => by
    cases h with
    | cons _ _ w _ s hv ht =>
      simp only [JsonFields.keys, JsonFields.toList, List.map_cons]
      have := keys_eq_of_jequivFields t s ht
      simp only [JsonFields.keys] at this
      rw [this]

/-- Bounded-size simultaneous induction: the canonical form respects the
key-permutation equivalence at every level of the payload. -/
theorem normEquivAux : ∀ n : Nat,
    (∀ x y : Json, sizeOf x ≤ n → JEquiv x y → normalize x = normalize y) ∧
    (∀ l1 l2 : JsonList, sizeOf l1 ≤ n → JEquivList l1 l2 → normalizeList l1 = normalizeList l2) ∧
    (∀ o1 o2 : JsonFields, sizeOf o1 ≤ n → JEquivFields o1 o2 →
      normalizeFields o1 = normalizeFields o2) := by
  intro n
  induction n with
  | zero =>
    refine ⟨fun x y hx _ => absurd (sizeOf_pos_json x) (by omega), ?_, ?_⟩
    · intro l1 l2 hl h
      cases h with
      | nil => rfl
      | cons x y xs ys hx hxs => exact absurd hl (by simp)
    · intro o1 o2 ho h
      cases h with
      | nil => rfl
      | cons k v w t1 t2 hv ht => exact absurd ho (by simp)
  | succ n ih =>
    obtain ⟨ihj, ihl, ihf⟩ := ih
    refine ⟨?_, ?_, ?_⟩
    · intro x y hx h
      cases h with
      | null => rfl
      | bool b => rfl
      | num m => rfl
      | str s => rfl
      | arr l1 l2 hl =>
        simp only [normalize]
        simp at hx
        rw [ihl l1 l2 (by omega) hl]
      | obj o1 mid o2 hfe hperm hnd =>
        simp only [normalize]
        simp at hx
        have h1 : normalizeFields o1 = normalizeFields mid := ihf o1 mid (by omega) hfe
        rw [h1]
        congr 1
        apply sortFields_eq_of_perm
        · rw [normalizeFields_toList mid, normalizeFields_toList o2]
          exact hperm.map _
        · rw [keys_normalizeFields]
          rw [(keys_eq_of_jequivFields o1 mid hfe).symm]
          exact hnd
    · intro l1 l2 hl h
      cases h with
      | nil => rfl
      | cons x y xs ys hx hxs =>
        simp only [normalizeList]
        simp at hl
        rw [ihj x y (by omega) hx, ihl xs ys (by omega) hxs]
    · intro o1 o2 ho h
      cases h with
      | nil => rfl
      | cons k v w t1 t2 hv ht =>
        simp only [normalizeFields]
        simp at ho
        rw [ihj v w (by omega) hv, ihf t1 t2 (by omega) ht]

theorem normalize_eq_of_jequiv {x y : Json} (h : JEquiv x y) : normalize x = normalize y :=
  (normEquivAux (sizeOf x)).1 x y (Nat.le_refl _) h

/-- Claim C3: the deterministic call identifier compute(tool_name, version,
input, sequence_number) is a pure function — identical arguments always
yield the same call id — and normalizing the input, in particular permuting
the key order of a structurally-equal input, yields the same call id. -/
theorem C3_call_id_normalization (tool_name : String) (version : SemVer)
    (input1 input2 : Json) (sequence_number : Nat) (h : JEquiv input1 input2) :
    CallId.compute tool_name version input1 sequence_number =
      CallId.compute tool_name version input1 sequence_number ∧
    CallId.compute tool_name version input1 sequence_number =
      CallId.compute tool_name version input2 sequence_number := by
  refine ⟨rfl, ?_⟩
  unfold CallId.compute
  rw [normalize_eq_of_jequiv h]

/-- Witness for C3 at a concrete permuted-object input. -/
theorem C3_call_id_normalization_witness :
    JEquiv (.obj (.cons "a" .null (.cons "b" (.num 1) .nil)))
        (.obj (.cons "b" (.num 1) (.cons "a" .null .nil))) ∧
      CallId.compute "web_search" ⟨1, 2, 0⟩
          (.obj (.cons "a" .null (.cons "b" (.num 1) .nil))) 0 =
        CallId.compute "web_search" ⟨1, 2, 0⟩
          (.obj (.cons "b" (.num 1) (.cons "a" .null .nil))) 0 := by
  have hfe : JEquivFields (.cons "a" .null (.cons "b" (.num 1) .nil))
      (.cons "a" .null (.cons "b" (.num 1) .nil)) :=
    JEquivFields.cons "a" .null .null _ _ JEquiv.null
      (JEquivFields.cons "b" (.num 1) (.num 1) .nil .nil (JEquiv.num 1) JEquivFields.nil)
  have h : JEquiv (.obj (.cons "a" .null (.cons "b" (.num 1) .nil)))
      (.obj (.cons "b" (.num 1) (.cons "a" .null .nil))) :=
    JEquiv.obj _ _ _ hfe (by decide) (by decide)
  exact ⟨h, (C3_call_id_normalization "web_search" ⟨1, 2, 0⟩ _ _ 0 h).2⟩

/-! ### Data model

Modelled from the spec: the data contracts of section 3 of the design
document (ToolError taxonomy, ToolEnvelope, ToolCall, descriptors,
RunPolicy, RunCounters). Timestamps are modelled as abstract clock ticks.
-/

inductive ErrorCode where
  | VALIDATION_ERROR
  | TIMEOUT
  | RATE_LIMIT
  | POLICY_DENIED
  | AUTH_REQUIRED
  | PROVIDER_ERROR
  | NETWORK_ERROR
  | SANDBOX_ERROR
  | UNKNOWN
deriving DecidableEq, Repr

structure ToolError where
  code : ErrorCode
  message : String
  details : Option Json
  retry_after_s : Option Nat
deriving DecidableEq, Repr

inductive AttachmentKind where
  | blob
  | image
  | table
deriving DecidableEq, Repr

structure Attachment where
  kind : AttachmentKind
  url : String
  content_type : Option String
  bytes : Option Nat
deriving DecidableEq, Repr

/-- Modelled from the spec: the ToolEnvelope receipt, the only externally
visible record of a tool invocation. -/
structure ToolEnvelope where
  call_id : String
  name : String
  version : String
  input : Json
  output : Option Json
  error : Option ToolError
  t_start : Nat
  t_end : Nat
  cached : Bool
  truncated : Bool
  attachments : List Attachment
deriving DecidableEq, Repr

/-- Exactly one of output and error is set. -/
def ToolEnvelope.exclusive (e : ToolEnvelope) : Prop :=
  (e.output.isSome ∧ e.error = none) ∨ (e.output = none ∧ e.error.isSome)

instance (e : ToolEnvelope) : Decidable e.exclusive := by
  unfold ToolEnvelope.exclusive; infer_instance

/-- Modelled from the spec: a proposed invocation with its sequence number
within the run. -/
structure ToolCall where
  name : String
  version : SemVer
  input : Json
  seq : Nat
deriving DecidableEq, Repr

inductive Category where
  | api
  | code
  | data
  | search
  | utility
deriving DecidableEq, Repr

inductive SideEffects where
  | none
  | reads
  | writes
deriving DecidableEq, Repr

inductive CachePolicy where
  | none
  | ttl (seconds : Nat)
  | forever
deriving DecidableEq, Repr

inductive LifecycleState where
  | active
  | deprecated
  | blocked
deriving DecidableEq, Repr

/-- Modelled from the spec: structural schema documents, reduced to a
top-level shape check sufficient for the validation step of the executor. -/
inductive SchemaTy where
  | any
  | tyNull
  | tyBool
  | tyNum
  | tyStr
  | tyArr
  | tyObj
deriving DecidableEq, Repr

def SchemaTy.validate : SchemaTy → Json → Bool
  | .any, _ => true
  | .tyNull, .null => true
  | .tyBool, .bool _ => true
  | .tyNum, .num _ => true
  | .tyStr, .str _ => true
  | .tyArr, .arr _ => true
  | .tyObj, .obj _ => true
  | _, _ => false

structure ToolDescriptor where
  name : String
  version : SemVer
  input_schema : SchemaTy
  output_schema : SchemaTy
  category : Category
  side_effects : SideEffects
  cache_policy : CachePolicy
  lifecycle_state : LifecycleState
deriving DecidableEq, Repr

structure RunPolicy where
  enabled_tools : List String
  max_iterations : Nat
  max_tool_calls : Nat
  max_budget : Option Nat
  side_effect_allowance : List SideEffects
deriving DecidableEq, Repr

structure RunCounters where
  iterations_completed : Nat
  tool_calls_issued : Nat
  budget_accrued : Nat
deriving DecidableEq, Repr

/-! ### Policy Guard -/

inductive DenyReason where
  | iteration_cap
  | tool_not_enabled
  | tool_call_cap
  | side_effects_denied
  | budget_exceeded
deriving DecidableEq, Repr

inductive GuardDecision where
  | allow
  | deny (reason : DenyReason)
deriving DecidableEq, Repr

/-- Modelled from the spec: the cost estimator for a proposed call is left
abstract by the design document; it is modelled as the byte size of the
serialized input, a fixed pure function of the call. -/
def estimated_cost (proposed_call : ToolCall) : Nat :=
  (serialize proposed_call.input).length

/-- True when the policy sets a budget ceiling and the accrued budget plus
the estimated cost of the proposed call exceeds it. -/
def budgetExceeded (policy : RunPolicy) (counters : RunCounters) (proposed_call : ToolCall) :
    Bool :=
  match policy.max_budget with
  | some b => decide (b < counters.budget_accrued + estimated_cost proposed_call)
  | none => false

/-- Modelled from the spec: check_call(policy, counters, proposed_call,
descriptor) -> Allow | Deny(reason), a pure function of its four inputs.
Evaluation order: iteration cap first, then the per-call checks in the
order the design document lists them; the first failing check wins. -/
def check_call (policy : RunPolicy) (counters : RunCounters) (proposed_call : ToolCall)
    (descriptor : ToolDescriptor) : GuardDecision :=
  if policy.max_iterations ≤ counters.iterations_completed then .deny .iteration_cap
  else if proposed_call.name ∉ policy.enabled_tools then .deny .tool_not_enabled
  else if policy.max_tool_calls ≤ counters.tool_calls_issued then .deny .tool_call_cap
  else if descriptor.side_effects ∉ policy.side_effect_allowance then .deny .side_effects_denied
  else if budgetExceeded policy counters proposed_call then .deny .budget_exceeded
  else .allow

theorem budgetExceeded_iff {policy : RunPolicy} {counters : RunCounters}
    {proposed_call : ToolCall} :
    budgetExceeded policy counters proposed_call = true ↔
      ∃ b, policy.max_budget = some b ∧
        b < counters.budget_accrued + estimated_cost proposed_call := by
  unfold budgetExceeded
  cases hb : policy.max_budget with
  | none => simp
  | some b => simp

/-- Claim C4: check_call is a pure function of its four inputs that returns
Deny exactly when at least one of the five listed conditions holds, with
the iteration cap evaluated first and then the per-call checks in the
listed order; the first failing check determines the Deny reason and
short-circuits the rest. Each equivalence below characterizes one outcome
of the guard in terms of the four inputs alone. -/
theorem C4_check_call_characterization (policy : RunPolicy) (counters : RunCounters)
    (proposed_call : ToolCall) (descriptor : ToolDescriptor) :
    ((∃ r, check_call policy counters proposed_call descriptor = .deny r) ↔
      (proposed_call.name ∉ policy.enabled_tools ∨
       policy.max_tool_calls ≤ counters.tool_calls_issued ∨
       policy.max_iterations ≤ counters.iterations_completed ∨
       descriptor.side_effects ∉ policy.side_effect_allowance ∨
       (∃ b, policy.max_budget = some b ∧
         b < counters.budget_accrued + estimated_cost proposed_call))) ∧
    (check_call policy counters proposed_call descriptor = .deny .iteration_cap ↔
      policy.max_iterations ≤ counters.iterations_completed) ∧
    (check_call policy counters proposed_call descriptor = .deny .tool_not_enabled ↔
      counters.iterations_completed < policy.max_iterations ∧
      proposed_call.name ∉ policy.enabled_tools) ∧
    (check_call policy counters proposed_call descriptor = .deny .tool_call_cap ↔
      counters.iterations_completed < policy.max_iterations ∧
      proposed_call.name ∈ policy.enabled_tools ∧
      policy.max_tool_calls ≤ counters.tool_calls_issued) ∧
    (check_call policy counters proposed_call descriptor = .deny .side_effects_denied ↔
      counters.iterations_completed < policy.max_iterations ∧
      proposed_call.name ∈ policy.enabled_tools ∧
      counters.tool_calls_issued < policy.max_tool_calls ∧
      descriptor.side_effects ∉ policy.side_effect_allowance) ∧
    (check_call policy counters proposed_call descriptor = .deny .budget_exceeded ↔
      counters.iterations_completed < policy.max_iterations ∧
      proposed_call.name ∈ policy.enabled_tools ∧
      counters.tool_calls_issued < policy.max_tool_calls ∧
      descriptor.side_effects ∈ policy.side_effect_allowance ∧
      (∃ b, policy.max_budget = some b ∧
        b < counters.budget_accrued + estimated_cost proposed_call)) := by
  have hb := @budgetExceeded_iff policy counters proposed_call
  unfold check_call
  split_ifs with h1 h2 h3 h4 h5 <;> simp_all

/-! ### Secret Resolver -/

inductive Scope where
  | user
  | workspace
  | org
deriving DecidableEq, Repr

structure SecretStore where
  user_secrets : List (String × List (String × String))
  workspace_secrets : List (String × List (String × String))
  org_secrets : List (String × List (String × String))
deriving DecidableEq, Repr

structure ToolContext where
  auth : List (String × String)
  tenant_id : String
deriving DecidableEq, Repr

/-- Modelled from the spec: secret resolution with strict precedence
User-scoped key, then Workspace-scoped key, then Org-scoped key; failure to
resolve any scope yields AUTH_REQUIRED. -/
def resolve_secret (store : SecretStore) (tool_name : String) :
    Except ToolError (List (String × String) × Scope) :=
  match store.user_secrets.lookup tool_name with
  | some creds => .ok (creds, .user)
  | none =>
    match store.workspace_secrets.lookup tool_name with
    | some creds => .ok (creds, .workspace)
    | none =>
      match store.org_secrets.lookup tool_name with
      | some creds => .ok (creds, .org)
      | none => .error ⟨.AUTH_REQUIRED, "no credential found for tool", none, none⟩

/-! ### Tool Cache -/

structure CacheEntry where
  key : String
  envelope : ToolEnvelope
  expires_at : Option Nat
deriving DecidableEq, Repr

/-- True while the entry has not yet expired at the given time. -/
def CacheEntry.live (e : CacheEntry) (now : Nat) : Bool :=
  match e.expires_at with
  | some t => decide (now < t)
  | none => true

/-- Modelled from the spec: get(call_id) consults the keyed store; entries
written with a ttl are treated as misses after expiry. -/
def cacheGet : List CacheEntry → String → Nat → Option ToolEnvelope
  | [], _, _ => none
  | e :: rest, key, now =>
    if e.key = key ∧ e.live now = true then some e.envelope
    else cacheGet rest key now

/-- Modelled from the spec: put(call_id, envelope, ttl?); writes are
last-writer-wins. -/
def cachePut (cache : List CacheEntry) (key : String) (envelope : ToolEnvelope)
    (expires_at : Option Nat) : List CacheEntry :=
  ⟨key, envelope, expires_at⟩ :: cache

/-- Well-formedness of the shared cache: every stored envelope is a
resolved receipt (exactly one of output/error) recorded under its own
call id. Runs start with an empty cache and the executor maintains this. -/
def CacheOK (cache : List CacheEntry) : Prop :=
  ∀ e ∈ cache, e.envelope.exclusive ∧ e.envelope.call_id = e.key

theorem cacheGet_some {cache : List CacheEntry} {key : String} {now : Nat}
    {env : ToolEnvelope} (h : cacheGet cache key now = some env) :
    ∃ e ∈ cache, e.key = key ∧ e.envelope = env := by
  induction cache with
  | nil => simp [cacheGet] at h
  | cons hd tl ih =>
    unfold cacheGet at h
    split at h
    · next hcond => exact ⟨hd, by simp, hcond.1, by injection h⟩
    · obtain ⟨e, he, hk, hv⟩ := ih h
      exact ⟨e, by simp [he], hk, hv⟩

/-! ### Tool Executor -/

/-- Execution environment of the core: the registry snapshot, the pluggable
execution backend for registered tools (validated calls go to their
implementation entry point, which reports failures as ToolError data), the
tenant, the output size ceiling, and the external blob store. Modelled from
the spec: tool implementations and collaborators are external; they enter
the model as pure parameters. -/
structure ExecEnv where
  registry : List ToolDescriptor
  impl : String → SemVer → Json → ToolContext → Except ToolError Json
  tenant_id : String
  max_output_bytes : Nat
  blob_url : Json → String
  traces_url : Option String

def resolveExact (registry : List ToolDescriptor) (name : String) (version : SemVer) :
    Option ToolDescriptor :=
  registry.find? (fun d => decide (d.name = name ∧ d.version = version))

def json_byte_size (j : Json) : Nat := (serialize j).length

/-- Modelled from the spec: serialized output exceeding the ceiling is
truncated; the envelope gains truncated: true and a blob attachment
pointing at the full payload in the out-of-band store. -/
def truncate_output (envv : ExecEnv) (out : Json) : Json × Bool × List Attachment :=
  if json_byte_size out ≤ envv.max_output_bytes then (out, false, [])
  else (.str "output truncated", true,
    [⟨.blob, envv.blob_url out, some "application/octet-stream", some (json_byte_size out)⟩])

/-- Failure receipt for one call: the error is returned as data, never
thrown. -/
def errorEnvelope (cid : String) (call : ToolCall) (now : Nat) (err : ToolError) :
    ToolEnvelope :=
  { call_id := cid, name := call.name, version := call.version.toStr, input := call.input,
    output := none, error := some err, t_start := now, t_end := now + 1,
    cached := false, truncated := false, attachments := [] }

/-- Success receipt for one freshly executed call, with output size
enforcement applied. -/
def freshEnvelope (envv : ExecEnv) (cid : String) (call : ToolCall) (now : Nat)
    (out : Json) : ToolEnvelope :=
  { call_id := cid, name := call.name, version := call.version.toStr, input := call.input,
    output := some (truncate_output envv out).1, error := none,
    t_start := now, t_end := now + 1, cached := false,
    truncated := (truncate_output envv out).2.1,
    attachments := (truncate_output envv out).2.2 }

/-- Modelled from the spec: the per-call pipeline of the Tool Executor —
validate, cache check, secret resolution, invoke, output size enforcement,
cache write. Every step degrades to a ToolError envelope rather than
aborting. -/
def run_call (envv : ExecEnv) (secrets : SecretStore) (cache : List CacheEntry) (now : Nat)
    (call : ToolCall) : ToolEnvelope × List CacheEntry :=
  match resolveExact envv.registry call.name call.version with
  | none => (errorEnvelope (CallId.compute call.name call.version call.input call.seq)
      call now ⟨.UNKNOWN, "tool not registered", none, none⟩, cache)
  | some desc =>
    if desc.input_schema.validate call.input = false then
      (errorEnvelope (CallId.compute call.name call.version call.input call.seq) call now
        ⟨.VALIDATION_ERROR, "input failed schema validation", none, none⟩, cache)
    else
      match (if desc.cache_policy ≠ .none then
          cacheGet cache (CallId.compute call.name call.version call.input call.seq) now
        else none) with
      | some stored => ({ stored with cached := true }, cache)
      | none =>
        match resolve_secret secrets call.name with
        | .error err =>
          (errorEnvelope (CallId.compute call.name call.version call.input call.seq)
            call now err, cache)
        | .ok (auth, _) =>
          match envv.impl call.name call.version call.input ⟨auth, envv.tenant_id⟩ with
          | .error err =>
            (errorEnvelope (CallId.compute call.name call.version call.input call.seq)
              call now err, cache)
          | .ok out =>
            match desc.cache_policy with
            | .none =>
              (freshEnvelope envv (CallId.compute call.name call.version call.input call.seq)
                call now out, cache)
            | .ttl s =>
              (freshEnvelope envv (CallId.compute call.name call.version call.input call.seq)
                  call now out,
                cachePut cache (CallId.compute call.name call.version call.input call.seq)
                  (freshEnvelope envv
                    (CallId.compute call.name call.version call.input call.seq) call now out)
                  (some (now + s)))
            | .forever =>
              (freshEnvelope envv (CallId.compute call.name call.version call.input call.seq)
                  call now out,
                cachePut cache (CallId.compute call.name call.version call.input call.seq)
                  (freshEnvelope envv
                    (CallId.compute call.name call.version call.input call.seq) call now out)
                  none)

/-- Modelled from the spec: execute_batch produces one envelope per input
call, order-preserving; the cache threads through the batch. -/
def execute_batch (envv : ExecEnv) (secrets : SecretStore) :
    List CacheEntry → Nat → List ToolCall → List ToolEnvelope × List CacheEntry
  | cache, _, [] => ([], cache)
  | cache, now, c :: rest =>
    let r1 := run_call envv secrets cache now c
    let r2 := execute_batch envv secrets r1.2 (now + 2) rest
    (r1.1 :: r2.1, r2.2)

theorem run_call_spec (envv : ExecEnv) (secrets : SecretStore) (cache : List CacheEntry)
    (now : Nat) (call : ToolCall) (hcache : CacheOK cache) :
    (run_call envv secrets cache now call).1.exclusive ∧
    (run_call envv secrets cache now call).1.call_id =
      CallId.compute call.name call.version call.input call.seq ∧
    ((run_call envv secrets cache now call).1.cached = false →
      (run_call envv secrets cache now call).1.name = call.name ∧
      (run_call envv secrets cache now call).1.version = call.version.toStr ∧
      (run_call envv secrets cache now call).1.input = call.input) ∧
    CacheOK (run_call envv secrets cache now call).2 := by
  have hfreshOK : ∀ cid out expiry,
      CacheOK (cachePut cache cid (freshEnvelope envv cid call now out) expiry) := by
    intro cid out expiry e he
    rcases List.mem_cons.mp he with h | h
    · subst h; exact ⟨Or.inl ⟨rfl, rfl⟩, rfl⟩
    · exact hcache e h
  unfold run_call
  rcases hres : resolveExact envv.registry call.name call.version with _ | desc
  · exact ⟨Or.inr ⟨rfl, rfl⟩, rfl, fun _ => ⟨rfl, rfl, rfl⟩, hcache⟩
  · by_cases hval : desc.input_schema.validate call.input = false
    · simp only [if_pos hval]
      exact ⟨Or.inr ⟨rfl, rfl⟩, rfl, fun _ => ⟨rfl, rfl, rfl⟩, hcache⟩
    · simp only [if_neg hval]
      rcases hget : (if desc.cache_policy ≠ CachePolicy.none then
          cacheGet cache (CallId.compute call.name call.version call.input call.seq) now
        else none) with _ | stored
      · simp only [hget]
        rcases hsec : resolve_secret secrets call.name with err | ⟨auth, scope⟩
        · dsimp only
          exact ⟨Or.inr ⟨rfl, rfl⟩, rfl, fun _ => ⟨rfl, rfl, rfl⟩, hcache⟩
        · dsimp only
          rcases himpl : envv.impl call.name call.version call.input
              ⟨auth, envv.tenant_id⟩ with err | out
          · dsimp only
            exact ⟨Or.inr ⟨rfl, rfl⟩, rfl, fun _ => ⟨rfl, rfl, rfl⟩, hcache⟩
          · dsimp only
            rcases hcp : desc.cache_policy with _ | s | _
            · dsimp only
              exact ⟨Or.inl ⟨rfl, rfl⟩, rfl, fun _ => ⟨rfl, rfl, rfl⟩, hcache⟩
            · dsimp only
              exact ⟨Or.inl ⟨rfl, rfl⟩, rfl, fun _ => ⟨rfl, rfl, rfl⟩, hfreshOK _ _ _⟩
            · dsimp only
              exact ⟨Or.inl ⟨rfl, rfl⟩, rfl, fun _ => ⟨rfl, rfl, rfl⟩, hfreshOK _ _ _⟩
      · simp only [hget]
        have hget2 : cacheGet cache
            (CallId.compute call.name call.version call.input call.seq) now = some stored := by
          split at hget
          · exact hget
          · exact absurd hget (by simp)
        obtain ⟨e, he, hk, hv⟩ := cacheGet_some hget2
        obtain ⟨hexc, hcid⟩ := hcache e he
        refine ⟨?_, ?_, fun hc => absurd hc (by simp), hcache⟩
        · rcases hexc with ⟨ho, he2⟩ | ⟨ho, he2⟩
          · exact Or.inl ⟨by simp [← hv, ho], by simp [← hv, he2]⟩
          · exact Or.inr ⟨by simp [← hv, ho], by simp [← hv, he2]⟩
        · simp only [← hv]
          rw [hcid, hk]

/-- Claim C6: execute_batch returns exactly one ToolEnvelope per input
ToolCall, the i-th envelope corresponding to the i-th proposed call
(result order matches proposal order), and every envelope in the returned
batch is resolved to success or failure — no partial batch. The
correspondence is stated pointwise: the envelope carries the call's
deterministic id, and a freshly executed (non-cached) envelope carries the
call's name, version and input. The model is a total function, so the
batch result always contains a resolution for every call. -/
theorem C6_execute_batch_contract (envv : ExecEnv) (secrets : SecretStore)
    (cache : List CacheEntry) (now : Nat) (calls : List ToolCall) (hcache : CacheOK cache) :
    (execute_batch envv secrets cache now calls).1.length = calls.length ∧
    List.Forall₂ (fun (e : ToolEnvelope) (c : ToolCall) =>
        e.call_id = CallId.compute c.name c.version c.input c.seq ∧
        (e.cached = false → e.name = c.name ∧ e.version = c.version.toStr ∧ e.input = c.input) ∧
        e.exclusive)
      (execute_batch envv secrets cache now calls).1 calls := by
  induction calls generalizing cache now with
  | nil => exact ⟨rfl, List.Forall₂.nil⟩
  | cons c rest ih =>
    obtain ⟨hexc, hcid, hfresh, hcok⟩ := run_call_spec envv secrets cache now c hcache
    obtain ⟨hlen, hall⟩ := ih (run_call envv secrets cache now c).2 (now + 2) hcok
    exact ⟨by simpa [execute_batch] using hlen,
      List.Forall₂.cons ⟨hcid, hfresh, hexc⟩ hall⟩

/-- Witness for C6 on a concrete two-call batch against an empty cache. -/
theorem C6_execute_batch_contract_witness :
    CacheOK [] ∧
    ((execute_batch
        ⟨[⟨"echo", ⟨1, 0, 0⟩, .any, .any, .utility, .none, .none, .active⟩],
          fun _ _ input _ => .ok input, "tenant0", 1000, fun _ => "blob://x", Option.none⟩
        ⟨[], [], [("echo", [("k", "v")])]⟩ [] 0
        [⟨"echo", ⟨1, 0, 0⟩, .num 1, 0⟩, ⟨"missing", ⟨1, 0, 0⟩, .null, 1⟩]).1.length = 2 ∧
      List.Forall₂ (fun (e : ToolEnvelope) (c : ToolCall) =>
          e.call_id = CallId.compute c.name c.version c.input c.seq ∧
          (e.cached = false → e.name = c.name ∧ e.version = c.version.toStr ∧
            e.input = c.input) ∧
          e.exclusive)
        (execute_batch
          ⟨[⟨"echo", ⟨1, 0, 0⟩, .any, .any, .utility, .none, .none, .active⟩],
            fun _ _ input _ => .ok input, "tenant0", 1000, fun _ => "blob://x", Option.none⟩
          ⟨[], [], [("echo", [("k", "v")])]⟩ [] 0
          [⟨"echo", ⟨1, 0, 0⟩, .num 1, 0⟩, ⟨"missing", ⟨1, 0, 0⟩, .null, 1⟩]).1
        [⟨"echo", ⟨1, 0, 0⟩, .num 1, 0⟩, ⟨"missing", ⟨1, 0, 0⟩, .null, 1⟩]) :=
  ⟨fun e he => absurd he (List.not_mem_nil e),
    C6_execute_batch_contract _ _ [] 0 _ (fun e he => absurd he (List.not_mem_nil e))⟩

/-- Claim C8: for a tool whose descriptor caches (ttl or forever), calling
it twice with identical input yields a first envelope with cached false
and, while the entry is live, a second envelope equal to the stored one
except for a freshly set cached true flag — identical call_id, output and
original timestamps; a ttl entry is treated as a miss after expiry. -/
theorem C8_cache_round_trip (envv : ExecEnv) (secrets : SecretStore) (call : ToolCall)
    (desc : ToolDescriptor) (t0 t1 : Nat) (auth : List (String × String)) (scope : Scope)
    (out : Json)
    (hres : resolveExact envv.registry call.name call.version = some desc)
    (hval : desc.input_schema.validate call.input = true)
    (hsec : resolve_secret secrets call.name = .ok (auth, scope))
    (himpl : envv.impl call.name call.version call.input ⟨auth, envv.tenant_id⟩ = .ok out) :
    (run_call envv secrets [] t0 call).1.cached = false ∧
    (desc.cache_policy = .forever →
      (run_call envv secrets (run_call envv secrets [] t0 call).2 t1 call).1 =
        { (run_call envv secrets [] t0 call).1 with cached := true }) ∧
    (∀ s, desc.cache_policy = .ttl s → t1 < t0 + s →
      (run_call envv secrets (run_call envv secrets [] t0 call).2 t1 call).1 =
        { (run_call envv secrets [] t0 call).1 with cached := true }) ∧
    (∀ s, desc.cache_policy = .ttl s → t0 + s ≤ t1 →
      (run_call envv secrets (run_call envv secrets [] t0 call).2 t1 call).1.cached = false) := by
  rcases hcp : desc.cache_policy with _ | s | _
  · have h1 : run_call envv secrets [] t0 call =
        (freshEnvelope envv (CallId.compute call.name call.version call.input call.seq)
          call t0 out, []) := by
      simp [run_call, hres, hval, hsec, himpl, hcp, cacheGet]
    refine ⟨by rw [h1]; rfl, ?_, ?_, ?_⟩
    · intro h; cases h
    · intro s2 h; cases h
    · intro s2 h; cases h
  · have h1 : run_call envv secrets [] t0 call =
        (freshEnvelope envv (CallId.compute call.name call.version call.input call.seq)
            call t0 out,
          [⟨CallId.compute call.name call.version call.input call.seq,
            freshEnvelope envv (CallId.compute call.name call.version call.input call.seq)
              call t0 out, some (t0 + s)⟩]) := by
      simp [run_call, hres, hval, hsec, himpl, hcp, cacheGet, cachePut]
    have h2hit : ∀ tt, tt < t0 + s → run_call envv secrets
        [⟨CallId.compute call.name call.version call.input call.seq,
          freshEnvelope envv (CallId.compute call.name call.version call.input call.seq)
            call t0 out, some (t0 + s)⟩] tt call =
        ({ freshEnvelope envv (CallId.compute call.name call.version call.input call.seq)
            call t0 out with cached := true },
          [⟨CallId.compute call.name call.version call.input call.seq,
            freshEnvelope envv (CallId.compute call.name call.version call.input call.seq)
              call t0 out, some (t0 + s)⟩]) := by
      intro tt hlt
      simp [run_call, hres, hval, hcp, cacheGet, CacheEntry.live, hlt]
    refine ⟨by rw [h1]; rfl, ?_, ?_, ?_⟩
    · intro h; cases h
    · intro s2 hs2 hlt
      injection hs2 with hs2
      subst hs2
      simp only [h1, h2hit t1 hlt]
    · intro s2 hs2 hge
      injection hs2 with hs2
      subst hs2
      have h2 : run_call envv secrets
          [⟨CallId.compute call.name call.version call.input call.seq,
            freshEnvelope envv (CallId.compute call.name call.version call.input call.seq)
              call t0 out, some (t0 + s)⟩] t1 call =
          (freshEnvelope envv (CallId.compute call.name call.version call.input call.seq)
              call t1 out,
            cachePut [⟨CallId.compute call.name call.version call.input call.seq,
              freshEnvelope envv (CallId.compute call.name call.version call.input call.seq)
                call t0 out, some (t0 + s)⟩]
              (CallId.compute call.name call.version call.input call.seq)
              (freshEnvelope envv (CallId.compute call.name call.version call.input call.seq)
                call t1 out) (some (t1 + s))) := by
        simp [run_call, hres, hval, hsec, himpl, hcp, cacheGet, CacheEntry.live,
          show ¬ t1 < t0 + s by omega]
      simp only [h1, h2]
      rfl
  · have h1 : run_call envv secrets [] t0 call =
        (freshEnvelope envv (CallId.compute call.name call.version call.input call.seq)
            call t0 out,
          [⟨CallId.compute call.name call.version call.input call.seq,
            freshEnvelope envv (CallId.compute call.name call.version call.input call.seq)
              call t0 out, none⟩]) := by
      simp [run_call, hres, hval, hsec, himpl, hcp, cacheGet, cachePut]
    refine ⟨by rw [h1]; rfl, ?_, ?_, ?_⟩
    · intro _
      have h2 : run_call envv secrets
          [⟨CallId.compute call.name call.version call.input call.seq,
            freshEnvelope envv (CallId.compute call.name call.version call.input call.seq)
              call t0 out, none⟩] t1 call =
          ({ freshEnvelope envv (CallId.compute call.name call.version call.input call.seq)
              call t0 out with cached := true },
            [⟨CallId.compute call.name call.version call.input call.seq,
              freshEnvelope envv (CallId.compute call.name call.version call.input call.seq)
                call t0 out, none⟩]) := by
        simp [run_call, hres, hval, hcp, cacheGet, CacheEntry.live]
      simp only [h1, h2]
    · intro s2 h; cases h
    · intro s2 h; cases h

/-- Concrete echo tool environment used by witnesses. -/
def sampleDesc : ToolDescriptor :=
  ⟨"echo", ⟨1, 0, 0⟩, .any, .any, .utility, .none, .ttl 10, .active⟩

def sampleEnv : ExecEnv :=
  ⟨[sampleDesc], fun _ _ input _ => .ok input, "tenant0", 1000, fun _ => "blob://full",
    Option.none⟩

def sampleSecrets : SecretStore := ⟨[], [], [("echo", [("api_key", "k123")])]⟩

def sampleCall : ToolCall := ⟨"echo", ⟨1, 0, 0⟩, .num 7, 0⟩

/-- Witness for C8: the concrete echo tool with a ttl cache policy, called
at times 0 and 5. -/
theorem C8_cache_round_trip_witness :
    resolveExact sampleEnv.registry sampleCall.name sampleCall.version = some sampleDesc ∧
    sampleDesc.input_schema.validate sampleCall.input = true ∧
    resolve_secret sampleSecrets sampleCall.name = .ok ([("api_key", "k123")], .org) ∧
    sampleEnv.impl sampleCall.name sampleCall.version sampleCall.input
      ⟨[("api_key", "k123")], sampleEnv.tenant_id⟩ = .ok (.num 7) ∧
    ((run_call sampleEnv sampleSecrets [] 0 sampleCall).1.cached = false ∧
      (sampleDesc.cache_policy = .forever →
        (run_call sampleEnv sampleSecrets
            (run_call sampleEnv sampleSecrets [] 0 sampleCall).2 5 sampleCall).1 =
          { (run_call sampleEnv sampleSecrets [] 0 sampleCall).1 with cached := true }) ∧
      (∀ s, sampleDesc.cache_policy = .ttl s → 5 < 0 + s →
        (run_call sampleEnv sampleSecrets
            (run_call sampleEnv sampleSecrets [] 0 sampleCall).2 5 sampleCall).1 =
          { (run_call sampleEnv sampleSecrets [] 0 sampleCall).1 with cached := true }) ∧
      (∀ s, sampleDesc.cache_policy = .ttl s → 0 + s ≤ 5 →
        (run_call sampleEnv sampleSecrets
            (run_call sampleEnv sampleSecrets [] 0 sampleCall).2 5 sampleCall).1.cached =
          false)) :=
  ⟨rfl, rfl, rfl, rfl,
    C8_cache_round_trip sampleEnv sampleSecrets sampleCall sampleDesc 0 5
      [("api_key", "k123")] .org (.num 7) rfl rfl rfl rfl⟩

/-! ### Orchestration Loop

Modelled from the spec: the state machine of section 4.6 — Init, Proposing
(iteration cap checked before the LLM call, iteration counter incremented
before dispatch), Guarding (denied calls synthesized as POLICY_DENIED
envelopes), Executing, Integrating (envelopes appended in proposal order,
tool_calls_issued counts allowed calls only), and termination. The LLM
Provider Adapter is an external collaborator modelled as a pure function of
the conversation context; the count of its invocations is instrumented in
the state, as are the call keys proposed during the run and the emitted
trace events.
-/

inductive ContextEntry where
  | system (s : String)
  | user (s : String)
  | assistant (s : String)
  | schema (d : ToolDescriptor)
  | tool_result (e : ToolEnvelope)
deriving DecidableEq, Repr

structure ProposedCall where
  name : String
  version : SemVer
  input : Json
deriving DecidableEq, Repr

structure AdapterTurn where
  text : Option String
  proposed_calls : List ProposedCall
deriving DecidableEq, Repr

/-- The identifying data of one proposed call within a run. -/
structure CallKey where
  name : String
  version : SemVer
  input : Json
  seq : Nat
deriving DecidableEq, Repr

def CallKey.id (k : CallKey) : String := CallId.compute k.name k.version k.input k.seq

inductive TraceEvent where
  | transition (state_name : String)
  | tool_start (call_id : String) (t : Nat)
  | tool_end (call_id : String) (t : Nat)
deriving DecidableEq, Repr

structure LoopState where
  counters : RunCounters
  tools_by_id : List (String × ToolEnvelope)
  tool_order : List String
  keys_trace : List CallKey
  context : List ContextEntry
  cache : List CacheEntry
  seq : Nat
  response : String
  adapter_calls : Nat
  clock : Nat
  last_tool : Option ToolEnvelope
  trace : List TraceEvent
deriving DecidableEq, Repr

def DenyReason.detail : DenyReason → String
  | .iteration_cap => "max_iterations reached"
  | .tool_not_enabled => "tool not in enabled_tools"
  | .tool_call_cap => "max_tool_calls reached"
  | .side_effects_denied => "side effects not allowed"
  | .budget_exceeded => "max_budget exceeded"

/-- Per-call guard decision taken by the loop: resolve the descriptor and
apply check_call; a call to a tool absent from the registry cannot be on
the allow-list's catalog and is denied. -/
def loop_guard (envv : ExecEnv) (policy : RunPolicy) (counters : RunCounters) (seq : Nat)
    (p : ProposedCall) : GuardDecision :=
  match resolveExact envv.registry p.name p.version with
  | some desc => check_call policy counters ⟨p.name, p.version, p.input, seq⟩ desc
  | none => .deny .tool_not_enabled

/-- Guarding, Executing and Integrating for a single proposed call,
preserving proposal order. An allowed call is executed through the Tool
Executor and counts toward tool_calls_issued and the budget; a denied call
is synthesized directly as a POLICY_DENIED error envelope and does not
count. Every proposed call appends exactly one envelope. -/
def integrate_one (envv : ExecEnv) (secrets : SecretStore) (policy : RunPolicy)
    (st : LoopState) (p : ProposedCall) : LoopState :=
  match loop_guard envv policy st.counters st.seq p with
  | .allow =>
    let r := run_call envv secrets st.cache st.clock ⟨p.name, p.version, p.input, st.seq⟩
    { st with
      counters := { st.counters with
        tool_calls_issued := st.counters.tool_calls_issued + 1,
        budget_accrued := st.counters.budget_accrued +
          estimated_cost ⟨p.name, p.version, p.input, st.seq⟩ },
      tools_by_id := st.tools_by_id ++ [(r.1.call_id, r.1)],
      tool_order := st.tool_order ++ [r.1.call_id],
      keys_trace := st.keys_trace ++ [⟨p.name, p.version, p.input, st.seq⟩],
      context := st.context ++ [.tool_result r.1],
      cache := r.2,
      seq := st.seq + 1,
      clock := st.clock + 2,
      last_tool := if r.1.error = none then some r.1 else st.last_tool,
      trace := st.trace ++ [.tool_start r.1.call_id st.clock,
        .tool_end r.1.call_id (st.clock + 1)] }
  | .deny reason =>
    let e := errorEnvelope (CallId.compute p.name p.version p.input st.seq)
      ⟨p.name, p.version, p.input, st.seq⟩ st.clock
      ⟨.POLICY_DENIED, "policy denied the call", some (.str reason.detail), none⟩
    { st with
      tools_by_id := st.tools_by_id ++ [(e.call_id, e)],
      tool_order := st.tool_order ++ [e.call_id],
      keys_trace := st.keys_trace ++ [⟨p.name, p.version, p.input, st.seq⟩],
      context := st.context ++ [.tool_result e],
      seq := st.seq + 1,
      clock := st.clock + 2,
      trace := st.trace ++ [.tool_start e.call_id st.clock,
        .tool_end e.call_id (st.clock + 1)] }

def integrate_batch (envv : ExecEnv) (secrets : SecretStore) (policy : RunPolicy)
    (st : LoopState) (ps : List ProposedCall) : LoopState :=
  ps.foldl (integrate_one envv secrets policy) st

/-- True when the policy sets a budget ceiling that the accrued budget has
exceeded. -/
def budget_stop (policy : RunPolicy) (counters : RunCounters) : Bool :=
  match policy.max_budget with
  | some b => decide (b < counters.budget_accrued)
  | none => false

/-- State change at the start of Proposing: the iteration counter and the
adapter invocation count are incremented before dispatch. -/
def proposing_state (st : LoopState) : LoopState :=
  { st with
    counters := { st.counters with
      iterations_completed := st.counters.iterations_completed + 1 },
    adapter_calls := st.adapter_calls + 1,
    trace := st.trace ++ [.transition "Proposing"] }

/-- Record the assistant text of the turn, when present. -/
def text_state (st : LoopState) : Option String → LoopState
  | some t => { st with response := t, context := st.context ++ [.assistant t] }
  | none => st

def terminating_state (st : LoopState) : LoopState :=
  { st with trace := st.trace ++ [.transition "Terminating"] }

/-- One fuel-indexed unfolding of the orchestration loop. Each iteration:
check the iteration cap before any LLM call; invoke the adapter (counted,
iterations_completed incremented before dispatch); terminate normally when
no calls are proposed; otherwise guard, execute and integrate every
proposed call in order and re-check the tool-call and budget caps. -/
def loop (envv : ExecEnv) (secrets : SecretStore)
    (adapter : List ContextEntry → AdapterTurn) (policy : RunPolicy) :
    Nat → LoopState → LoopState
  | 0, st => st
  | fuel + 1, st =>
    if policy.max_iterations ≤ st.counters.iterations_completed then
      terminating_state st
    else
      match (adapter st.context).proposed_calls with
      | [] => terminating_state (text_state (proposing_state st) (adapter st.context).text)
      | p :: ps =>
        if policy.max_tool_calls ≤ (integrate_batch envv secrets policy
              (text_state (proposing_state st) (adapter st.context).text)
              (p :: ps)).counters.tool_calls_issued ∨
            budget_stop policy (integrate_batch envv secrets policy
              (text_state (proposing_state st) (adapter st.context).text)
              (p :: ps)).counters = true then
          terminating_state (integrate_batch envv secrets policy
            (text_state (proposing_state st) (adapter st.context).text) (p :: ps))
        else
          loop envv secrets adapter policy fuel (integrate_batch envv secrets policy
            (text_state (proposing_state st) (adapter st.context).text) (p :: ps))

def init_state (envv : ExecEnv) (policy : RunPolicy) (sys usr : String) : LoopState :=
  { counters := ⟨0, 0, 0⟩,
    tools_by_id := [], tool_order := [], keys_trace := [],
    context := [.system sys, .user usr] ++
      (envv.registry.filter (fun d => decide (d.name ∈ policy.enabled_tools))).map .schema,
    cache := [], seq := 0, response := "", adapter_calls := 0, clock := 0,
    last_tool := none, trace := [.transition "Init"] }

/-- A full run: the loop is entered with enough fuel that it only stops at
a termination condition of the state machine. -/
def run_agent (envv : ExecEnv) (secrets : SecretStore)
    (adapter : List ContextEntry → AdapterTurn) (policy : RunPolicy) (sys usr : String) :
    LoopState :=
  loop envv secrets adapter policy (policy.max_iterations + 1) (init_state envv policy sys usr)

/-- Modelled from the spec: the stable output contract assembled at run
termination; traces_url is produced by the observability collaborator. -/
structure AgentOutputs where
  response : String
  tools_by_id : List (String × ToolEnvelope)
  tool_order : List String
  last_tool : Option ToolEnvelope
  traces_url : Option String
deriving DecidableEq, Repr

def assemble (envv : ExecEnv) (st : LoopState) : AgentOutputs :=
  ⟨st.response, st.tools_by_id, st.tool_order, st.last_tool, envv.traces_url⟩

/-! ### Run-wide invariants -/

/-- Invariant carried by the loop state: the cache is well formed, the
order list mirrors the proposed call keys, the map keys mirror the order
list, every recorded envelope is keyed by its own call id and resolved,
and the sequence numbers handed out so far are distinct and below the next
one. -/
structure StateOK (st : LoopState) : Prop where
  cache_ok : CacheOK st.cache
  order_eq : st.tool_order = st.keys_trace.map CallKey.id
  byid_fst : st.tools_by_id.map Prod.fst = st.tool_order
  byid_ok : ∀ p ∈ st.tools_by_id, p.2.call_id = p.1 ∧ p.2.exclusive
  seq_bound : ∀ k ∈ st.keys_trace, k.seq < st.seq
  seq_nodup : (st.keys_trace.map CallKey.seq).Nodup

theorem init_state_ok (envv : ExecEnv) (policy : RunPolicy) (sys usr : String) :
    StateOK (init_state envv policy sys usr) :=
  ⟨fun e he => absurd he (List.not_mem_nil e), rfl, rfl,
    fun p hp => absurd hp (List.not_mem_nil p),
    fun k hk => absurd hk (List.not_mem_nil k), List.nodup_nil⟩

theorem integrate_one_ok (envv : ExecEnv) (secrets : SecretStore) (policy : RunPolicy)
    (st : LoopState) (p : ProposedCall) (hok : StateOK st) :
    StateOK (integrate_one envv secrets policy st p) := by
  have hseq_app : ∀ k ∈ st.keys_trace ++ [(⟨p.name, p.version, p.input, st.seq⟩ : CallKey)],
      k.seq < st.seq + 1 := by
    intro k hk
    rcases List.mem_append.mp hk with h | h
    · have := hok.seq_bound k h; omega
    · simp at h; subst h; show st.seq < st.seq + 1; omega
  have hnodup_app :
      ((st.keys_trace ++ [(⟨p.name, p.version, p.input, st.seq⟩ : CallKey)]).map
        CallKey.seq).Nodup := by
    rw [List.map_append, List.nodup_append]
    refine ⟨hok.seq_nodup, by simp, ?_⟩
    intro x hx
    obtain ⟨k, hk, hkx⟩ := List.mem_map.mp hx
    have hlt := hok.seq_bound k hk
    simp only [List.map_cons, List.map_nil, List.mem_singleton]
    show x ≠ st.seq
    omega
  unfold integrate_one
  rcases hguard : loop_guard envv policy st.counters st.seq p with _ | reason
  · dsimp only
    obtain ⟨hexc, hcid, _, hcok⟩ := run_call_spec envv secrets st.cache st.clock
      ⟨p.name, p.version, p.input, st.seq⟩ hok.cache_ok
    refine ⟨hcok, ?_, ?_, ?_, hseq_app, hnodup_app⟩
    · rw [List.map_append, ← hok.order_eq, hcid]
      rfl
    · rw [List.map_append, hok.byid_fst]
      rfl
    · intro q hq
      rcases List.mem_append.mp hq with h | h
      · exact hok.byid_ok q h
      · simp at h; subst h; exact ⟨rfl, hexc⟩
  · dsimp only
    refine ⟨hok.cache_ok, ?_, ?_, ?_, hseq_app, hnodup_app⟩
    · rw [List.map_append, ← hok.order_eq]
      rfl
    · rw [List.map_append, hok.byid_fst]
      rfl
    · intro q hq
      rcases List.mem_append.mp hq with h | h
      · exact hok.byid_ok q h
      · simp at h; subst h; exact ⟨rfl, Or.inr ⟨rfl, rfl⟩⟩

theorem integrate_batch_ok (envv : ExecEnv) (secrets : SecretStore) (policy : RunPolicy) :
    ∀ (ps : List ProposedCall) (st : LoopState), StateOK st →
      StateOK (integrate_batch envv secrets policy st ps)
  | [], _, hok => hok
  | p :: ps, st, hok =>
    integrate_batch_ok envv secrets policy ps (integrate_one envv secrets policy st p)
      (integrate_one_ok envv secrets policy st p hok)

theorem proposing_state_ok {st : LoopState} (hok : StateOK st) :
    StateOK (proposing_state st) :=
  ⟨hok.cache_ok, hok.order_eq, hok.byid_fst, hok.byid_ok, hok.seq_bound, hok.seq_nodup⟩

theorem text_state_ok {st : LoopState} (hok : StateOK st) :
    ∀ text : Option String, StateOK (text_state st text)
  | some _ => ⟨hok.cache_ok, hok.order_eq, hok.byid_fst, hok.byid_ok, hok.seq_bound,
      hok.seq_nodup⟩
  | none => hok

theorem terminating_state_ok {st : LoopState} (hok : StateOK st) :
    StateOK (terminating_state st) :=
  ⟨hok.cache_ok, hok.order_eq, hok.byid_fst, hok.byid_ok, hok.seq_bound, hok.seq_nodup⟩

theorem loop_ok (envv : ExecEnv) (secrets : SecretStore)
    (adapter : List ContextEntry → AdapterTurn) (policy : RunPolicy) :
    ∀ (fuel : Nat) (st : LoopState), StateOK st →
      StateOK (loop envv secrets adapter policy fuel st)
  | 0, _, hok => hok
  | fuel + 1, st, hok => by
    unfold loop
    split
    · exact terminating_state_ok hok
    · split
      · exact terminating_state_ok (text_state_ok (proposing_state_ok hok) _)
      · split
        · exact terminating_state_ok (integrate_batch_ok envv secrets policy _ _
            (text_state_ok (proposing_state_ok hok) _))
        · exact loop_ok envv secrets adapter policy fuel _
            (integrate_batch_ok envv secrets policy _ _
              (text_state_ok (proposing_state_ok hok) _))

theorem run_agent_ok (envv : ExecEnv) (secrets : SecretStore)
    (adapter : List ContextEntry → AdapterTurn) (policy : RunPolicy) (sys usr : String) :
    StateOK (run_agent envv secrets adapter policy sys usr) :=
  loop_ok envv secrets adapter policy (policy.max_iterations + 1)
    (init_state envv policy sys usr) (init_state_ok envv policy sys usr)

/-! ### Concrete run used by witnesses -/

/-- Scripted adapter test double: propose one allowed and one unknown call
on the first turn, then answer with text only. -/
def sampleAdapter (ctx : List ContextEntry) : AdapterTurn :=
  if ctx.any (fun c => match c with | .tool_result _ => true | _ => false) then
    ⟨some "done", []⟩
  else
    ⟨none, [⟨"echo", ⟨1, 0, 0⟩, .num 7⟩, ⟨"forbidden", ⟨1, 0, 0⟩, .null⟩]⟩

def samplePolicy : RunPolicy := ⟨["echo"], 3, 5, Option.none, [.none, .reads, .writes]⟩

def sampleRun : LoopState :=
  run_agent sampleEnv sampleSecrets sampleAdapter samplePolicy "sys" "usr"

def defaultEntry : String × ToolEnvelope :=
  ("", errorEnvelope "" ⟨"", ⟨0, 0, 0⟩, .null, 0⟩ 0 ⟨.UNKNOWN, "m", Option.none, Option.none⟩)

/-! ### Claims about the loop -/

/-- Claim C1: every ToolEnvelope produced during a run — executed by the
Tool Executor, served from the cache, or synthesized for a denied call —
has exactly one of output and error set: output present exactly on
success, error present exactly on failure, never both, never neither. -/
theorem C1_envelope_exclusivity (envv : ExecEnv) (secrets : SecretStore)
    (adapter : List ContextEntry → AdapterTurn) (policy : RunPolicy) (sys usr : String) :
    ∀ p ∈ (run_agent envv secrets adapter policy sys usr).tools_by_id, p.2.exclusive :=
  fun p hp => ((run_agent_ok envv secrets adapter policy sys usr).byid_ok p hp).2

/-- Witness for C1 on the first envelope of the concrete sample run. -/
theorem C1_envelope_exclusivity_witness :
    sampleRun.tools_by_id.getD 0 defaultEntry ∈ sampleRun.tools_by_id ∧
    (sampleRun.tools_by_id.getD 0 defaultEntry).2.exclusive :=
  ⟨by decide,
    C1_envelope_exclusivity sampleEnv sampleSecrets sampleAdapter samplePolicy "sys" "usr"
      (sampleRun.tools_by_id.getD 0 defaultEntry) (by decide)⟩

/-- Claim C2: in the assembled outputs of any run the keys of tools_by_id
are exactly tool_order (identical length, order and membership, so the key
set of tools_by_id equals the element set of tool_order), tool_order has
no duplicates, and every envelope is recorded under its own call_id — so
every ToolEnvelope.call_id is unique within the run. Per the design
document, uniqueness of the hash-produced ids rests on collision
resistance of the hash; the hypothesis states exactly that no collision
occurs among the call keys of this run. -/
theorem C2_tool_order_fidelity (envv : ExecEnv) (secrets : SecretStore)
    (adapter : List ContextEntry → AdapterTurn) (policy : RunPolicy) (sys usr : String)
    (hinj : ∀ k1 ∈ (run_agent envv secrets adapter policy sys usr).keys_trace,
      ∀ k2 ∈ (run_agent envv secrets adapter policy sys usr).keys_trace,
      CallKey.id k1 = CallKey.id k2 → k1 = k2) :
    (run_agent envv secrets adapter policy sys usr).tool_order.Nodup ∧
    (run_agent envv secrets adapter policy sys usr).tools_by_id.map Prod.fst =
      (run_agent envv secrets adapter policy sys usr).tool_order ∧
    (∀ p ∈ (run_agent envv secrets adapter policy sys usr).tools_by_id,
      p.2.call_id = p.1) := by
  have hok := run_agent_ok envv secrets adapter policy sys usr
  refine ⟨?_, hok.byid_fst, fun p hp => (hok.byid_ok p hp).1⟩
  rw [hok.order_eq]
  exact List.Nodup.map_on hinj (List.Nodup.of_map CallKey.seq hok.seq_nodup)

/-- Witness for C2: the concrete sample run issues two calls whose ids are
computed and checked collision-free. -/
theorem C2_tool_order_fidelity_witness :
    (∀ k1 ∈ sampleRun.keys_trace, ∀ k2 ∈ sampleRun.keys_trace,
      CallKey.id k1 = CallKey.id k2 → k1 = k2) ∧
    (sampleRun.tool_order.Nodup ∧
      sampleRun.tools_by_id.map Prod.fst = sampleRun.tool_order ∧
      (∀ p ∈ sampleRun.tools_by_id, p.2.call_id = p.1)) :=
  ⟨by decide,
    C2_tool_order_fidelity sampleEnv sampleSecrets sampleAdapter samplePolicy "sys" "usr"
      (by decide)⟩

/-- Claim C5: a proposed call denied by the Policy Guard still appends a
ToolEnvelope whose error code is POLICY_DENIED to tools_by_id and
tool_order — tool_order grows by one, the call never silently vanishes —
and tool_calls_issued does not count it; an allowed call also appends one
envelope and is the only kind that increments tool_calls_issued. -/
theorem C5_denied_call_visibility (envv : ExecEnv) (secrets : SecretStore)
    (policy : RunPolicy) (st : LoopState) (p : ProposedCall) :
    (∀ r, loop_guard envv policy st.counters st.seq p = .deny r →
      (integrate_one envv secrets policy st p).tool_order.length =
        st.tool_order.length + 1 ∧
      (integrate_one envv secrets policy st p).tools_by_id =
        st.tools_by_id ++ [(CallId.compute p.name p.version p.input st.seq,
          errorEnvelope (CallId.compute p.name p.version p.input st.seq)
            ⟨p.name, p.version, p.input, st.seq⟩ st.clock
            ⟨.POLICY_DENIED, "policy denied the call", some (.str r.detail), none⟩)] ∧
      (integrate_one envv secrets policy st p).counters.tool_calls_issued =
        st.counters.tool_calls_issued) ∧
    (loop_guard envv policy st.counters st.seq p = .allow →
      (integrate_one envv secrets policy st p).tool_order.length =
        st.tool_order.length + 1 ∧
      (integrate_one envv secrets policy st p).counters.tool_calls_issued =
        st.counters.tool_calls_issued + 1) := by
  constructor
  · intro r hguard
    unfold integrate_one
    rw [hguard]
    dsimp only
    exact ⟨by simp, rfl, rfl⟩
  · intro hguard
    unfold integrate_one
    rw [hguard]
    dsimp only
    exact ⟨by simp, rfl⟩

/-- Witness for C5: a call to a tool outside enabled_tools, integrated
into the freshly initialized state of the sample run. -/
theorem C5_denied_call_visibility_witness :
    loop_guard sampleEnv samplePolicy
      (init_state sampleEnv samplePolicy "sys" "usr").counters
      (init_state sampleEnv samplePolicy "sys" "usr").seq
      ⟨"forbidden", ⟨1, 0, 0⟩, .null⟩ = .deny .tool_not_enabled ∧
    ((integrate_one sampleEnv sampleSecrets samplePolicy
        (init_state sampleEnv samplePolicy "sys" "usr")
        ⟨"forbidden", ⟨1, 0, 0⟩, .null⟩).tool_order.length =
      (init_state sampleEnv samplePolicy "sys" "usr").tool_order.length + 1 ∧
    (integrate_one sampleEnv sampleSecrets samplePolicy
        (init_state sampleEnv samplePolicy "sys" "usr")
        ⟨"forbidden", ⟨1, 0, 0⟩, .null⟩).tools_by_id =
      (init_state sampleEnv samplePolicy "sys" "usr").tools_by_id ++
        [(CallId.compute "forbidden" ⟨1, 0, 0⟩ .null
            (init_state sampleEnv samplePolicy "sys" "usr").seq,
          errorEnvelope (CallId.compute "forbidden" ⟨1, 0, 0⟩ .null
              (init_state sampleEnv samplePolicy "sys" "usr").seq)
            ⟨"forbidden", ⟨1, 0, 0⟩, .null,
              (init_state sampleEnv samplePolicy "sys" "usr").seq⟩
            (init_state sampleEnv samplePolicy "sys" "usr").clock
            ⟨.POLICY_DENIED, "policy denied the call",
              some (.str DenyReason.tool_not_enabled.detail), none⟩)] ∧
    (integrate_one sampleEnv sampleSecrets samplePolicy
        (init_state sampleEnv samplePolicy "sys" "usr")
        ⟨"forbidden", ⟨1, 0, 0⟩, .null⟩).counters.tool_calls_issued =
      (init_state sampleEnv samplePolicy "sys" "usr").counters.tool_calls_issued) :=
  ⟨by decide,
    (C5_denied_call_visibility sampleEnv sampleSecrets samplePolicy
      (init_state sampleEnv samplePolicy "sys" "usr")
      ⟨"forbidden", ⟨1, 0, 0⟩, .null⟩).1 .tool_not_enabled (by decide)⟩

/-- Claim C7: a run whose policy sets max_iterations to zero terminates
without ever invoking the LLM Provider Adapter — the adapter invocation
count stays zero — transitioning directly to Terminating with the
accumulated (empty) output. -/
theorem C7_guard_short_circuit (envv : ExecEnv) (secrets : SecretStore)
    (adapter : List ContextEntry → AdapterTurn) (policy : RunPolicy) (sys usr : String)
    (h : policy.max_iterations = 0) :
    (run_agent envv secrets adapter policy sys usr).adapter_calls = 0 ∧
    (run_agent envv secrets adapter policy sys usr).tool_order = [] ∧
    (run_agent envv secrets adapter policy sys usr).tools_by_id = [] ∧
    (run_agent envv secrets adapter policy sys usr).response = "" := by
  have hfuel : policy.max_iterations + 1 = 1 := by rw [h]
  unfold run_agent
  rw [hfuel]
  unfold loop
  rw [if_pos (by rw [h]; exact Nat.le_refl 0)]
  exact ⟨rfl, rfl, rfl, rfl⟩

/-- Witness for C7 with a zero-iteration policy. -/
theorem C7_guard_short_circuit_witness :
    (⟨["echo"], 0, 5, Option.none, [.none]⟩ : RunPolicy).max_iterations = 0 ∧
    ((run_agent sampleEnv sampleSecrets sampleAdapter
        ⟨["echo"], 0, 5, Option.none, [.none]⟩ "sys" "usr").adapter_calls = 0 ∧
      (run_agent sampleEnv sampleSecrets sampleAdapter
        ⟨["echo"], 0, 5, Option.none, [.none]⟩ "sys" "usr").tool_order = [] ∧
      (run_agent sampleEnv sampleSecrets sampleAdapter
        ⟨["echo"], 0, 5, Option.none, [.none]⟩ "sys" "usr").tools_by_id = [] ∧
      (run_agent sampleEnv sampleSecrets sampleAdapter
        ⟨["echo"], 0, 5, Option.none, [.none]⟩ "sys" "usr").response = "") :=
  ⟨rfl, C7_guard_short_circuit sampleEnv sampleSecrets sampleAdapter
    ⟨["echo"], 0, 5, Option.none, [.none]⟩ "sys" "usr" rfl⟩

/-! ### Secret noninterference -/

theorem run_call_secret_indep (envv : ExecEnv) (secrets1 secrets2 : SecretStore)
    (herr : ∀ t e, resolve_secret secrets1 t = .error e → resolve_secret secrets2 t = .error e)
    (hok : ∀ t a1 sc, resolve_secret secrets1 t = .ok (a1, sc) →
      ∃ a2, resolve_secret secrets2 t = .ok (a2, sc) ∧
        ∀ v i, envv.impl t v i ⟨a1, envv.tenant_id⟩ = envv.impl t v i ⟨a2, envv.tenant_id⟩) :
    ∀ (cache : List CacheEntry) (now : Nat) (call : ToolCall),
      run_call envv secrets1 cache now call = run_call envv secrets2 cache now call := by
  intro cache now call
  unfold run_call
  rcases hres : resolveExact envv.registry call.name call.version with _ | desc
  · rfl
  · dsimp only
    by_cases hval : desc.input_schema.validate call.input = false
    · simp only [if_pos hval]
    · simp only [if_neg hval]
      rcases hget : (if desc.cache_policy ≠ CachePolicy.none then
          cacheGet cache (CallId.compute call.name call.version call.input call.seq) now
        else none) with _ | stored
      · dsimp only
        rcases hsec : resolve_secret secrets1 call.name with e | ⟨a1, sc⟩
        · rw [herr call.name e hsec]
        · obtain ⟨a2, hsec2, himpl⟩ := hok call.name a1 sc hsec
          rw [hsec2]
          dsimp only
          rw [himpl call.version call.input]
      · rfl

theorem integrate_one_secret_indep (envv : ExecEnv) (secrets1 secrets2 : SecretStore)
    (policy : RunPolicy)
    (herr : ∀ t e, resolve_secret secrets1 t = .error e → resolve_secret secrets2 t = .error e)
    (hok : ∀ t a1 sc, resolve_secret secrets1 t = .ok (a1, sc) →
      ∃ a2, resolve_secret secrets2 t = .ok (a2, sc) ∧
        ∀ v i, envv.impl t v i ⟨a1, envv.tenant_id⟩ = envv.impl t v i ⟨a2, envv.tenant_id⟩) :
    ∀ (st : LoopState) (p : ProposedCall),
      integrate_one envv secrets1 policy st p = integrate_one envv secrets2 policy st p := by
  intro st p
  unfold integrate_one
  rcases hguard : loop_guard envv policy st.counters st.seq p with _ | r
  · dsimp only
    rw [run_call_secret_indep envv secrets1 secrets2 herr hok st.cache st.clock]
  · rfl

theorem integrate_batch_secret_indep (envv : ExecEnv) (secrets1 secrets2 : SecretStore)
    (policy : RunPolicy)
    (herr : ∀ t e, resolve_secret secrets1 t = .error e → resolve_secret secrets2 t = .error e)
    (hok : ∀ t a1 sc, resolve_secret secrets1 t = .ok (a1, sc) →
      ∃ a2, resolve_secret secrets2 t = .ok (a2, sc) ∧
        ∀ v i, envv.impl t v i ⟨a1, envv.tenant_id⟩ = envv.impl t v i ⟨a2, envv.tenant_id⟩) :
    ∀ (ps : List ProposedCall) (st : LoopState),
      integrate_batch envv secrets1 policy st ps = integrate_batch envv secrets2 policy st ps
  | [], _ => rfl
  | p :: ps, st => by
    show integrate_batch envv secrets1 policy (integrate_one envv secrets1 policy st p) ps =
      integrate_batch envv secrets2 policy (integrate_one envv secrets2 policy st p) ps
    rw [integrate_one_secret_indep envv secrets1 secrets2 policy herr hok st p]
    exact integrate_batch_secret_indep envv secrets1 secrets2 policy herr hok ps _

theorem loop_secret_indep (envv : ExecEnv) (secrets1 secrets2 : SecretStore)
    (adapter : List ContextEntry → AdapterTurn) (policy : RunPolicy)
    (herr : ∀ t e, resolve_secret secrets1 t = .error e → resolve_secret secrets2 t = .error e)
    (hok : ∀ t a1 sc, resolve_secret secrets1 t = .ok (a1, sc) →
      ∃ a2, resolve_secret secrets2 t = .ok (a2, sc) ∧
        ∀ v i, envv.impl t v i ⟨a1, envv.tenant_id⟩ = envv.impl t v i ⟨a2, envv.tenant_id⟩) :
    ∀ (fuel : Nat) (st : LoopState),
      loop envv secrets1 adapter policy fuel st = loop envv secrets2 adapter policy fuel st
  | 0, _ => rfl
  | fuel + 1, st => by
    unfold loop
    split
    · rfl
    · split
      · rfl
      · rw [integrate_batch_secret_indep envv secrets1 secrets2 policy herr hok]
        split
        · rfl
        · exact loop_secret_indep envv secrets1 secrets2 adapter policy herr hok fuel _

/-- Claim C10: no resolved secret value flows into the produced envelopes,
outputs or emitted trace. For two runs differing only in the secret values
supplied through the resolver — same resolution shape (the resolver fails
identically, succeeds in the same scope) and the same tool results under
either credential set — the entire resulting run states are identical:
every envelope, the assembled outputs and the trace log. Secrets influence
a run only through the tool's own result. -/
theorem C10_secret_noninterference (envv : ExecEnv) (secrets1 secrets2 : SecretStore)
    (adapter : List ContextEntry → AdapterTurn) (policy : RunPolicy) (sys usr : String)
    (herr : ∀ t e, resolve_secret secrets1 t = .error e → resolve_secret secrets2 t = .error e)
    (hok : ∀ t a1 sc, resolve_secret secrets1 t = .ok (a1, sc) →
      ∃ a2, resolve_secret secrets2 t = .ok (a2, sc) ∧
        ∀ v i, envv.impl t v i ⟨a1, envv.tenant_id⟩ = envv.impl t v i ⟨a2, envv.tenant_id⟩) :
    run_agent envv secrets1 adapter policy sys usr =
      run_agent envv secrets2 adapter policy sys usr ∧
    (run_agent envv secrets1 adapter policy sys usr).tools_by_id =
      (run_agent envv secrets2 adapter policy sys usr).tools_by_id ∧
    (run_agent envv secrets1 adapter policy sys usr).trace =
      (run_agent envv secrets2 adapter policy sys usr).trace := by
  have h := loop_secret_indep envv secrets1 secrets2 adapter policy herr hok
    (policy.max_iterations + 1) (init_state envv policy sys usr)
  exact ⟨h, by rw [run_agent, run_agent, h], by rw [run_agent, run_agent, h]⟩

/-- Second secret store for the noninterference witness: same shape as
sampleSecrets, different secret value. -/
def sampleSecrets2 : SecretStore := ⟨[], [], [("echo", [("api_key", "zzz")])]⟩

theorem sample_herr : ∀ t e, resolve_secret sampleSecrets t = .error e →
    resolve_secret sampleSecrets2 t = .error e := by
  intro t e h
  by_cases ht : t = "echo"
  · subst ht
    simp [resolve_secret, List.lookup, sampleSecrets] at h
  · have hbeq : (t == "echo") = false := by simp [ht]
    simp [resolve_secret, List.lookup, hbeq, sampleSecrets, sampleSecrets2] at h ⊢
    exact h

theorem sample_hok : ∀ t a1 sc, resolve_secret sampleSecrets t = .ok (a1, sc) →
    ∃ a2, resolve_secret sampleSecrets2 t = .ok (a2, sc) ∧
      ∀ v i, sampleEnv.impl t v i ⟨a1, sampleEnv.tenant_id⟩ =
        sampleEnv.impl t v i ⟨a2, sampleEnv.tenant_id⟩ := by
  intro t a1 sc h
  by_cases ht : t = "echo"
  · subst ht
    have hres : resolve_secret sampleSecrets "echo" =
        .ok ([("api_key", "k123")], .org) := rfl
    rw [hres] at h
    injection h with hpair
    injection hpair with h1 h2
    subst h1
    subst h2
    exact ⟨[("api_key", "zzz")], rfl, fun v i => rfl⟩
  · have hbeq : (t == "echo") = false := by simp [ht]
    simp [resolve_secret, List.lookup, hbeq, sampleSecrets] at h

/-- Witness for C10: two concrete secret stores differing only in the
stored secret value produce identical runs. -/
theorem C10_secret_noninterference_witness :
    sampleSecrets ≠ sampleSecrets2 ∧
    run_agent sampleEnv sampleSecrets sampleAdapter samplePolicy "sys" "usr" =
      run_agent sampleEnv sampleSecrets2 sampleAdapter samplePolicy "sys" "usr" :=
  ⟨by decide,
    (C10_secret_noninterference sampleEnv sampleSecrets sampleSecrets2 sampleAdapter
      samplePolicy "sys" "usr" sample_herr sample_hok).1⟩

/-! ### Tool Registry

Modelled from the spec: register fails with DuplicateVersion when
name+version already exists (descriptors are immutable, never
overwritten); resolve with the version omitted returns the highest active
version, falls back to a warning-flagged deprecated version, fails with
Blocked when the only match is blocked, and fails with NotFound when
nothing matches.
-/

inductive RegError where
  | DuplicateVersion
  | NotFound
  | Blocked
deriving DecidableEq, Repr

def register (reg : List ToolDescriptor) (d : ToolDescriptor) :
    Except RegError (List ToolDescriptor) :=
  if reg.any (fun d2 => decide (d2.name = d.name ∧ d2.version = d.version)) then
    .error .DuplicateVersion
  else
    .ok (reg ++ [d])

/-- Strict ordering of semantic versions. -/
def SemVer.ltb (a b : SemVer) : Bool :=
  decide (a.major < b.major) ||
    (decide (a.major = b.major) &&
      (decide (a.minor < b.minor) ||
        (decide (a.minor = b.minor) && decide (a.patch < b.patch))))

theorem SemVer.ltb_iff {a b : SemVer} :
    SemVer.ltb a b = true ↔
      (a.major < b.major ∨ (a.major = b.major ∧
        (a.minor < b.minor ∨ (a.minor = b.minor ∧ a.patch < b.patch)))) := by
  simp [SemVer.ltb]

theorem SemVer.ltb_irrefl (a : SemVer) : SemVer.ltb a a = false := by
  simp [SemVer.ltb]

theorem SemVer.ltb_trans {a b c : SemVer} (h1 : SemVer.ltb a b = true)
    (h2 : SemVer.ltb b c = true) : SemVer.ltb a c = true := by
  rw [SemVer.ltb_iff] at h1 h2 ⊢
  omega

/-- Highest version among a list of descriptors; on a version tie the
earlier entry wins. -/
def pickHighest : List ToolDescriptor → Option ToolDescriptor
  | [] => none
  | d :: rest =>
    match pickHighest rest with
    | none => some d
    | some m => if SemVer.ltb m.version d.version then some d else some m

theorem pickHighest_eq_none : ∀ l : List ToolDescriptor, pickHighest l = none → l = []
  | [], _ => rfl
  | d :: rest, h => by
    unfold pickHighest at h
    rcases hrest : pickHighest rest with _ | m <;> simp only [hrest] at h
    · cases h
    · split at h <;> cases h

theorem pickHighest_mem : ∀ (l : List ToolDescriptor) (m : ToolDescriptor),
    pickHighest l = some m → m ∈ l
  | [], m, h => by cases h
  | d :: rest, m, h => by
    unfold pickHighest at h
    rcases hrest : pickHighest rest with _ | m2 <;> simp only [hrest] at h
    · injection h with h; subst h; exact List.mem_cons_self d rest
    · split at h
      · injection h with h; subst h; exact List.mem_cons_self d rest
      · injection h with h
        subst h
        exact List.mem_cons_of_mem d (pickHighest_mem rest m2 hrest)

theorem pickHighest_max : ∀ (l : List ToolDescriptor) (m : ToolDescriptor),
    pickHighest l = some m → ∀ d ∈ l, SemVer.ltb m.version d.version = false
  | [], m, h => by cases h
  | d :: rest, m, h => by
    unfold pickHighest at h
    rcases hrest : pickHighest rest with _ | m2 <;> simp only [hrest] at h
    · injection h with h
      subst h
      intro x hx
      rcases List.mem_cons.mp hx with hx | hx
      · subst hx; exact SemVer.ltb_irrefl _
      · rw [pickHighest_eq_none rest hrest] at hx
        exact absurd hx (List.not_mem_nil x)
    · have ihmax := pickHighest_max rest m2 hrest
      split at h
      · next hlt =>
        injection h with h
        subst h
        intro x hx
        rcases List.mem_cons.mp hx with hx | hx
        · subst hx; exact SemVer.ltb_irrefl _
        · by_contra hcon
          simp only [Bool.not_eq_false] at hcon
          have hc := SemVer.ltb_trans hlt hcon
          rw [ihmax x hx] at hc
          cases hc
      · next hlt =>
        injection h with h
        subst h
        intro x hx
        rcases List.mem_cons.mp hx with hx | hx
        · subst hx; simpa using hlt
        · exact ihmax x hx

def matching (reg : List ToolDescriptor) (name : String) : List ToolDescriptor :=
  reg.filter (fun d => decide (d.name = name))

def inState (reg : List ToolDescriptor) (name : String) (st : LifecycleState) :
    List ToolDescriptor :=
  (matching reg name).filter (fun d => decide (d.lifecycle_state = st))

/-- Modelled from the spec: resolve(name) with the version omitted. -/
def resolve (reg : List ToolDescriptor) (name : String) :
    Except RegError (ToolDescriptor × Bool) :=
  match pickHighest (inState reg name .active) with
  | some d => .ok (d, false)
  | none =>
    match pickHighest (inState reg name .deprecated) with
    | some d => .ok (d, true)
    | none =>
      if (matching reg name).any (fun d => decide (d.lifecycle_state = .blocked)) then
        .error .Blocked
      else
        .error .NotFound

theorem mem_inState {reg : List ToolDescriptor} {name : String} {st : LifecycleState}
    {d : ToolDescriptor} :
    d ∈ inState reg name st ↔ d ∈ reg ∧ d.name = name ∧ d.lifecycle_state = st := by
  rw [inState, List.mem_filter, matching, List.mem_filter]
  simp only [decide_eq_true_eq]
  tauto

theorem inState_nil_of_not_exists {reg : List ToolDescriptor} {name : String}
    {st : LifecycleState} (h : ¬ ∃ d2 ∈ reg, d2.name = name ∧ d2.lifecycle_state = st) :
    inState reg name st = [] := by
  rw [List.eq_nil_iff_forall_not_mem]
  intro d hd
  rw [mem_inState] at hd
  exact h ⟨d, hd.1, hd.2⟩

/-- Claim C9: register(descriptor) fails with DuplicateVersion exactly when
name+version is already registered, and otherwise only appends — the
previously registered descriptors are never overwritten. resolve(name)
with the version omitted returns the highest active version; when no
active version exists but a deprecated one matches it succeeds flagged
with a deprecation warning; when the only matches are blocked it fails
with Blocked; when nothing matches it fails with NotFound. -/
theorem C9_registry_contract (reg : List ToolDescriptor) (d : ToolDescriptor)
    (name : String) :
    (register reg d = .error .DuplicateVersion ↔
      ∃ d2 ∈ reg, d2.name = d.name ∧ d2.version = d.version) ∧
    (∀ reg2, register reg d = .ok reg2 → reg2 = reg ++ [d]) ∧
    ((∃ d2 ∈ reg, d2.name = name ∧ d2.lifecycle_state = .active) →
      ∃ m, resolve reg name = .ok (m, false) ∧ m ∈ reg ∧ m.name = name ∧
        m.lifecycle_state = .active ∧
        ∀ d2 ∈ reg, d2.name = name → d2.lifecycle_state = .active →
          SemVer.ltb m.version d2.version = false) ∧
    ((¬ ∃ d2 ∈ reg, d2.name = name ∧ d2.lifecycle_state = .active) →
      (∃ d2 ∈ reg, d2.name = name ∧ d2.lifecycle_state = .deprecated) →
      ∃ m, resolve reg name = .ok (m, true) ∧ m ∈ reg ∧ m.name = name ∧
        m.lifecycle_state = .deprecated ∧
        ∀ d2 ∈ reg, d2.name = name → d2.lifecycle_state = .deprecated →
          SemVer.ltb m.version d2.version = false) ∧
    ((¬ ∃ d2 ∈ reg, d2.name = name ∧ d2.lifecycle_state = .active) →
      (¬ ∃ d2 ∈ reg, d2.name = name ∧ d2.lifecycle_state = .deprecated) →
      (∃ d2 ∈ reg, d2.name = name ∧ d2.lifecycle_state = .blocked) →
      resolve reg name = .error .Blocked) ∧
    ((¬ ∃ d2 ∈ reg, d2.name = name) → resolve reg name = .error .NotFound) := by
  refine ⟨?_, ?_, ?_, ?_, ?_, ?_⟩
  · unfold register
    by_cases hdup :
        reg.any (fun d2 => decide (d2.name = d.name ∧ d2.version = d.version)) = true
    · rw [if_pos hdup]
      simp only [List.any_eq_true, decide_eq_true_eq] at hdup
      exact iff_of_true rfl hdup
    · rw [if_neg hdup]
      simp only [List.any_eq_true, decide_eq_true_eq] at hdup
      constructor
      · intro h; cases h
      · intro h; exact absurd h hdup
  · intro reg2 h
    unfold register at h
    split at h
    · cases h
    · injection h with h; exact h.symm
  · rintro ⟨d2, hd2, hname, hstate⟩
    have hmem : d2 ∈ inState reg name .active := mem_inState.mpr ⟨hd2, hname, hstate⟩
    rcases hpick : pickHighest (inState reg name .active) with _ | m
    · exact absurd (pickHighest_eq_none _ hpick ▸ hmem) (List.not_mem_nil d2)
    · have hm := mem_inState.mp (pickHighest_mem _ m hpick)
      refine ⟨m, ?_, hm.1, hm.2.1, hm.2.2, ?_⟩
      · unfold resolve; rw [hpick]
      · intro d3 h3 hn3 hs3
        exact pickHighest_max _ m hpick d3 (mem_inState.mpr ⟨h3, hn3, hs3⟩)
  · intro hnone
    rintro ⟨d2, hd2, hname, hstate⟩
    have hnil : inState reg name .active = [] := inState_nil_of_not_exists hnone
    have hmem : d2 ∈ inState reg name .deprecated := mem_inState.mpr ⟨hd2, hname, hstate⟩
    rcases hpick : pickHighest (inState reg name .deprecated) with _ | m
    · exact absurd (pickHighest_eq_none _ hpick ▸ hmem) (List.not_mem_nil d2)
    · have hm := mem_inState.mp (pickHighest_mem _ m hpick)
      refine ⟨m, ?_, hm.1, hm.2.1, hm.2.2, ?_⟩
      · unfold resolve; rw [hnil, hpick]; rfl
      · intro d3 h3 hn3 hs3
        exact pickHighest_max _ m hpick d3 (mem_inState.mpr ⟨h3, hn3, hs3⟩)
  · intro hnoact hnodep hblocked
    obtain ⟨d2, hd2, hname, hstate⟩ := hblocked
    have hnil1 : inState reg name .active = [] := inState_nil_of_not_exists hnoact
    have hnil2 : inState reg name .deprecated = [] := inState_nil_of_not_exists hnodep
    unfold resolve
    rw [hnil1, hnil2]
    have hany : (matching reg name).any (fun x => decide (x.lifecycle_state = .blocked)) =
        true := by
      simp only [List.any_eq_true, decide_eq_true_eq]
      exact ⟨d2, by simp [matching, List.mem_filter, hd2, hname], hstate⟩
    simp [hany, pickHighest]
  · intro hnomatch
    have hmat : matching reg name = [] := by
      rw [List.eq_nil_iff_forall_not_mem]
      intro x hx
      rw [matching, List.mem_filter] at hx
      exact hnomatch ⟨x, hx.1, by simpa using hx.2⟩
    have hnil1 : inState reg name .active = [] := by simp [inState, hmat]
    have hnil2 : inState reg name .deprecated = [] := by simp [inState, hmat]
    unfold resolve
    rw [hnil1, hnil2, hmat]
    rfl

/-- Registry fixture for the C9 witness: one tool with an active, a newer
deprecated, and a blocked version, a second tool whose only versions are
deprecated, a third that is only blocked. -/
def regFixture : List ToolDescriptor :=
  [⟨"alpha", ⟨1, 0, 0⟩, .any, .any, .api, .none, .none, .active⟩,
   ⟨"alpha", ⟨2, 0, 0⟩, .any, .any, .api, .none, .none, .active⟩,
   ⟨"alpha", ⟨3, 0, 0⟩, .any, .any, .api, .none, .none, .deprecated⟩,
   ⟨"beta", ⟨1, 1, 0⟩, .any, .any, .api, .none, .none, .deprecated⟩,
   ⟨"gamma", ⟨0, 1, 0⟩, .any, .any, .api, .none, .none, .blocked⟩]

/-- Witness for C9 exercising the duplicate, append, active, deprecated,
blocked and not-found branches at concrete registries. -/
theorem C9_registry_contract_witness :
    ((∃ d2 ∈ regFixture, d2.name = "alpha" ∧ d2.version = ⟨1, 0, 0⟩) →
      register regFixture ⟨"alpha", ⟨1, 0, 0⟩, .any, .any, .api, .none, .none, .active⟩ =
        .error .DuplicateVersion) ∧
    ((∃ d2 ∈ regFixture, d2.name = "alpha" ∧ d2.lifecycle_state = .active) →
      ∃ m, resolve regFixture "alpha" = .ok (m, false) ∧ m ∈ regFixture ∧
        m.name = "alpha" ∧ m.lifecycle_state = .active ∧
        ∀ d2 ∈ regFixture, d2.name = "alpha" → d2.lifecycle_state = .active →
          SemVer.ltb m.version d2.version = false) ∧
    ((¬ ∃ d2 ∈ regFixture, d2.name = "beta" ∧ d2.lifecycle_state = .active) →
      (∃ d2 ∈ regFixture, d2.name = "beta" ∧ d2.lifecycle_state = .deprecated) →
      ∃ m, resolve regFixture "beta" = .ok (m, true) ∧ m ∈ regFixture ∧
        m.name = "beta" ∧ m.lifecycle_state = .deprecated ∧
        ∀ d2 ∈ regFixture, d2.name = "beta" → d2.lifecycle_state = .deprecated →
          SemVer.ltb m.version d2.version = false) ∧
    ((¬ ∃ d2 ∈ regFixture, d2.name = "gamma" ∧ d2.lifecycle_state = .active) →
      (¬ ∃ d2 ∈ regFixture, d2.name = "gamma" ∧ d2.lifecycle_state = .deprecated) →
      (∃ d2 ∈ regFixture, d2.name = "gamma" ∧ d2.lifecycle_state = .blocked) →
      resolve regFixture "gamma" = .error .Blocked) ∧
    ((¬ ∃ d2 ∈ regFixture, d2.name = "delta") →
      resolve regFixture "delta" = .error .NotFound) ∧
    (∃ d2 ∈ regFixture, d2.name = "alpha" ∧ d2.version = (⟨1, 0, 0⟩ : SemVer)) ∧
    (∃ d2 ∈ regFixture, d2.name = "alpha" ∧ d2.lifecycle_state = .active) ∧
    (¬ ∃ d2 ∈ regFixture, d2.name = "beta" ∧ d2.lifecycle_state = .active) ∧
    (∃ d2 ∈ regFixture, d2.name = "beta" ∧ d2.lifecycle_state = .deprecated) ∧
    (¬ ∃ d2 ∈ regFixture, d2.name = "gamma" ∧ d2.lifecycle_state = .active) ∧
    (¬ ∃ d2 ∈ regFixture, d2.name = "gamma" ∧ d2.lifecycle_state = .deprecated) ∧
    (∃ d2 ∈ regFixture, d2.name = "gamma" ∧ d2.lifecycle_state = .blocked) ∧
    (¬ ∃ d2 ∈ regFixture, d2.name = "delta") :=
  ⟨fun _ => (C9_registry_contract regFixture
      ⟨"alpha", ⟨1, 0, 0⟩, .any, .any, .api, .none, .none, .active⟩ "alpha").1.mpr
      (by decide),
    (C9_registry_contract regFixture
      ⟨"alpha", ⟨1, 0, 0⟩, .any, .any, .api, .none, .none, .active⟩ "alpha").2.2.1,
    (C9_registry_contract regFixture
      ⟨"alpha", ⟨1, 0, 0⟩, .any, .any, .api, .none, .none, .active⟩ "beta").2.2.2.1,
    (C9_registry_contract regFixture
      ⟨"alpha", ⟨1, 0, 0⟩, .any, .any, .api, .none, .none, .active⟩ "gamma").2.2.2.2.1,
    (C9_registry_contract regFixture
      ⟨"alpha", ⟨1, 0, 0⟩, .any, .any, .api, .none, .none, .active⟩ "delta").2.2.2.2.2,
    by decide, by decide, by decide, by decide, by decide, by decide, by decide, by decide⟩

end AgentTools
